import Mathlib

/-!
Shallow embedding of the api-watchtower observation pipeline (Go sources under
internal/ and the monitoring / notification packages) together with proofs of
the behavioural properties stated about it.  Pure functions of the source are
translated into Lean functions; stateful loops become explicit state passing;
wall-clock instants become integers (or rationals where the source computes
with float64 seconds); fallible calls return `Option` values.
-/

namespace Watchtower

/-- Application log entry (internal/db/models.go, `ApplicationLog`); only the
fields the ingester touches are modelled.  `timestamp` is an integer instant,
with `0` playing the role of Go's zero `time.Time`. -/
structure ApplicationLog where
  applicationId : String
  serviceName : String
  severity : String
  message : String
  timestamp : Int
  deriving Repr, DecidableEq

/-- Field validation of internal/log/ingestion.go, `validateLog`: returns the
first error message for an empty required field, `none` when the log is valid. -/
def validateLog (log : ApplicationLog) : Option String :=
  if log.applicationId = "" then some "application_id is required"
  else if log.serviceName = "" then some "service_name is required"
  else if log.severity = "" then some "severity is required"
  else if log.message = "" then some "message is required"
  else none

/-- internal/log/ingestion.go, `IngestLog`.  The `json.Unmarshal` step is
modelled by its outcome: `parsed = none` when the raw bytes do not parse, and
`some log` with the decoded entry otherwise.  Returns the new buffer and the
error (if any): on a parse or validation error the buffer is returned
untouched; otherwise the entry, with `timestamp` defaulted to `now` when zero,
is appended at the end. -/
def IngestLog (parsed : Option ApplicationLog) (now : Int)
    (buffer : List ApplicationLog) : List ApplicationLog × Option String :=
  match parsed with
  | none => (buffer, some "unmarshal error")
  | some log =>
    match validateLog log with
    | some e => (buffer, some e)
    | none =>
      let log := if log.timestamp = 0 then { log with timestamp := now } else log
      (buffer ++ [log], none)

/-- internal/log/ingestion.go, `flush`.  The storage call
`BatchInsertLogs` is modelled by its outcome `insertOk`.  The function takes up
to `batchSize` entries from the head of the buffer; on success the batch is
discarded, on failure it is prepended back to the head. -/
def flush (batchSize : Nat) (buffer : List ApplicationLog) (insertOk : Bool) :
    List ApplicationLog :=
  if buffer.isEmpty then buffer
  else
    let bs := if batchSize > buffer.length then buffer.length else batchSize
    let batch := buffer.take bs
    let rest := buffer.drop bs
    if insertOk then rest else batch ++ rest

/-- C3: for every buffer and every batch taken by a flush (up to `batch_size`
entries from the head), a successful `BatchInsertLogs` discards exactly the
batch (the buffer becomes the remaining suffix), and a failed one prepends the
batch back so the buffer again contains exactly the logs it held before the
flush, in their original order. -/
theorem flush_failure_restores_buffer (batchSize : Nat)
    (buffer : List ApplicationLog) :
    flush batchSize buffer false = buffer ∧
    flush batchSize buffer true = buffer.drop (min batchSize buffer.length) := by
  unfold flush
  by_cases hEmpty : buffer.isEmpty
  · simp [hEmpty]
    rw [List.isEmpty_iff] at hEmpty
    subst hEmpty
    simp
  · simp only [hEmpty, Bool.false_eq_true, if_false]
    constructor
    · simp [List.take_append_drop]
    · by_cases hlen : batchSize > buffer.length
      · simp [hlen, Nat.min_eq_right (Nat.le_of_lt hlen)]
      · have h' : min batchSize buffer.length = batchSize :=
          Nat.min_eq_left (Nat.le_of_not_lt hlen)
        simp [hlen, h']

/-- C10: `IngestLog` returns an error exactly when the raw input fails to
parse or one of the four required fields is empty; on error the buffer is
unchanged, and on success exactly one entry is appended at the end, with its
timestamp replaced by `now` when the parsed timestamp is zero. -/
theorem IngestLog_validation (parsed : Option ApplicationLog) (now : Int)
    (buffer : List ApplicationLog) :
    ((IngestLog parsed now buffer).2.isSome ↔
      (parsed = none ∨ ∃ log, parsed = some log ∧
        (log.applicationId = "" ∨ log.serviceName = "" ∨
         log.severity = "" ∨ log.message = ""))) ∧
    ((IngestLog parsed now buffer).2.isSome →
      (IngestLog parsed now buffer).1 = buffer) ∧
    (∀ log, parsed = some log → (IngestLog parsed now buffer).2 = none →
      (IngestLog parsed now buffer).1 =
        buffer ++ [if log.timestamp = 0 then { log with timestamp := now }
                   else log]) := by
  match parsed with
  | none => simp [IngestLog]
  | some log =>
    simp only [IngestLog]
    by_cases h1 : log.applicationId = "" <;>
      by_cases h2 : log.serviceName = "" <;>
        by_cases h3 : log.severity = "" <;>
          by_cases h4 : log.message = "" <;>
            simp [validateLog, h1, h2, h3, h4]

/-- Witness for C10: a concrete valid log with zero timestamp is appended with
the ingestion-time timestamp, as `IngestLog_validation` asserts. -/
theorem IngestLog_validation_witness :
    (IngestLog (some ⟨"app", "svc", "INFO", "boom", 0⟩) 42 []).1 =
      [⟨"app", "svc", "INFO", "boom", 42⟩] := by
  have h := (IngestLog_validation (some ⟨"app", "svc", "INFO", "boom", 0⟩)
    42 []).2.2 ⟨"app", "svc", "INFO", "boom", 0⟩ rfl (by decide)
  simpa using h

/-! Alert manager cooldown gate (internal/alert/manager.go). -/

/-- An event processed by the alert manager against one rule.  `sourceID` is
`getSourceID` of the event (target id or analysis id, `""` for unknown event
kinds), `time` the wall-clock instant at which `shouldTriggerAlert` runs, and
`condMatches` the outcome of the rule's condition evaluation
(`evaluateMonitoringConditions` / `evaluateAIConditions`) on the event. -/
structure AMEvent where
  sourceID : String
  time : Nat
  condMatches : Bool
  deriving Repr, DecidableEq

/-- Map update for the rule's `LastTriggered` map. -/
def setLT (lt : String → Option Nat) (s : String) (t : Nat) :
    String → Option Nat :=
  fun x => if x = s then some t else lt x

/-- internal/alert/manager.go, `shouldTriggerAlert` for a single rule: an
empty source id never triggers; otherwise the cooldown gate is tested against
`last_triggered[sourceID]` and, when it passes, `last_triggered[sourceID]` is
set to now before the rule condition is evaluated. -/
def shouldTriggerAlert (cd : Nat) (lt : String → Option Nat) (e : AMEvent) :
    (String → Option Nat) × Bool :=
  if e.sourceID = "" then (lt, false)
  else
    match lt e.sourceID with
    | some last =>
      if e.time - last < cd then (lt, false)
      else (setLT lt e.sourceID e.time, e.condMatches)
    | none => (setLT lt e.sourceID e.time, e.condMatches)

/-- Folds `shouldTriggerAlert` over a trace of events, collecting for every
triggered alert the pair (source id, creation time). -/
def processTrace (cd : Nat) (lt : String → Option Nat) :
    List AMEvent → (String → Option Nat) × List (String × Nat)
  | [] => (lt, [])
  | e :: rest =>
    let step := shouldTriggerAlert cd lt e
    let tail := processTrace cd step.1 rest
    (tail.1, (if step.2 then [(e.sourceID, e.time)] else []) ++ tail.2)

/-- Creation times of the alerts for one source, in trace order. -/
def alertsFor (s : String) (alerts : List (String × Nat)) : List Nat :=
  (alerts.filter (fun a => a.1 = s)).map (fun a => a.2)

/-- Every recorded last-trigger instant is below every remaining event time. -/
def ltBound (lt : String → Option Nat) (trace : List AMEvent) : Prop :=
  ∀ s n, lt s = some n → ∀ e ∈ trace, n ≤ e.time

theorem ltBound_step (cd : Nat) (lt : String → Option Nat) (e : AMEvent)
    (rest : List AMEvent) (hb : ltBound lt (e :: rest))
    (hmono : ∀ e' ∈ rest, e.time ≤ e'.time) :
    ltBound (shouldTriggerAlert cd lt e).1 rest := by
  have hb' : ltBound lt rest := fun s n h e' he' => hb s n h e' (by simp [he'])
  have hset : ltBound (setLT lt e.sourceID e.time) rest := by
    intro s n h e' he'
    by_cases hs : s = e.sourceID
    · simp [setLT, hs] at h
      exact h ▸ hmono e' he'
    · simp [setLT, hs] at h
      exact hb' s n h e' he'
  unfold shouldTriggerAlert
  split
  · exact hb'
  · split
    · split
      · exact hb'
      · exact hset
    · exact hset

theorem lt_step_mono (cd : Nat) (lt : String → Option Nat) (e : AMEvent)
    (s : String) (last : Nat) (h : lt s = some last)
    (hbnd : last ≤ e.time) :
    ∃ last', (shouldTriggerAlert cd lt e).1 s = some last' ∧ last ≤ last' := by
  have hset : ∃ last', setLT lt e.sourceID e.time s = some last' ∧
      last ≤ last' := by
    by_cases hs : s = e.sourceID
    · exact ⟨e.time, by simp [setLT, hs], hbnd⟩
    · exact ⟨last, by simp [setLT, hs, h], le_refl last⟩
  unfold shouldTriggerAlert
  split
  · exact ⟨last, h, le_refl last⟩
  · split
    · split
      · exact ⟨last, h, le_refl last⟩
      · exact hset
    · exact hset

/-- Every alert produced by a run is at least one cooldown after the initial
last-trigger entry of its source. -/
theorem alerts_after_lt (cd : Nat) : ∀ (trace : List AMEvent)
    (lt : String → Option Nat),
    List.Pairwise (fun e1 e2 => e1.time ≤ e2.time) trace →
    ltBound lt trace →
    ∀ s t, t ∈ alertsFor s (processTrace cd lt trace).2 →
      ∀ last, lt s = some last → last + cd ≤ t := by
  intro trace
  induction trace with
  | nil => intro lt _ _ s t ht; simp [processTrace, alertsFor] at ht
  | cons e rest ih =>
    intro lt hmono hb s t ht last hlast
    rw [List.pairwise_cons] at hmono
    have hbrest := ltBound_step cd lt e rest hb hmono.1
    simp only [processTrace, alertsFor, List.filter_append, List.map_append,
      List.mem_append] at ht
    rcases ht with ht | ht
    · -- the alert comes from the head event
      rcases hfire : (shouldTriggerAlert cd lt e).2 with _ | _
      · simp [hfire] at ht
      · simp only [hfire, if_true] at ht
        by_cases hs : e.sourceID = s
        · simp [hs] at ht
          subst ht
          -- the gate passed with state lt, so e.time - last escaped the cooldown
          unfold shouldTriggerAlert at hfire
          by_cases hempty : e.sourceID = ""
          · simp [hempty] at hfire
          · simp only [hempty, if_false] at hfire
            rw [hs, hlast] at hfire
            by_cases hcool : e.time - last < cd
            · simp [hcool] at hfire
            · have hle : last ≤ e.time := hb s last hlast e (by simp)
              omega
        · simp [hs] at ht
    · -- the alert comes from the tail of the trace
      have hlt' := lt_step_mono cd lt e s last hlast
        (hb s last hlast e (by simp))
      rcases hlt' with ⟨last', hlast', hmono'⟩
      have := ih (shouldTriggerAlert cd lt e).1 hmono.2 hbrest s t
        (by simpa [alertsFor] using ht) last' hlast'
      omega

/-- C1: over any time-ordered trace of processed events and any source `s`,
consecutive alerts created by a rule for `s` are separated by at least the
rule's cooldown; moreover the cooldown test and the `last_triggered` update
happen before condition evaluation, so an event that passes the gate sets
`last_triggered[sourceID] = now` even when its condition then fails
(`condMatches = false`) and no alert is created. -/
theorem cooldown_spacing (cd : Nat) (trace : List AMEvent) (s : String)
    (hmono : List.Pairwise (fun e1 e2 => e1.time ≤ e2.time) trace)
    (lt : String → Option Nat) (e : AMEvent)
    (hsrc : e.sourceID ≠ "")
    (hgate : ∀ last, lt e.sourceID = some last → cd ≤ e.time - last) :
    List.Chain' (fun t1 t2 => t1 + cd ≤ t2)
      (alertsFor s (processTrace cd (fun _ => none) trace).2) ∧
    (shouldTriggerAlert cd lt e).1 e.sourceID = some e.time := by
  constructor
  · -- spacing over the trace, by induction with a generalized start state
    suffices h : ∀ (tr : List AMEvent) (lt0 : String → Option Nat),
        List.Pairwise (fun e1 e2 => e1.time ≤ e2.time) tr →
        ltBound lt0 tr →
        List.Chain' (fun t1 t2 => t1 + cd ≤ t2)
          (alertsFor s (processTrace cd lt0 tr).2) by
      exact h trace (fun _ => none) hmono (by intro _ _ h; cases h)
    intro tr
    induction tr with
    | nil => intro lt0 _ _; simp [processTrace, alertsFor]
    | cons e0 rest ih =>
      intro lt0 hm hb
      rw [List.pairwise_cons] at hm
      have hbrest := ltBound_step cd lt0 e0 rest hb hm.1
      simp only [processTrace, alertsFor, List.filter_append, List.map_append]
      rcases hfire : (shouldTriggerAlert cd lt0 e0).2 with _ | _
      · simpa [hfire, alertsFor] using ih (shouldTriggerAlert cd lt0 e0).1 hm.2 hbrest
      · by_cases hs : e0.sourceID = s
        · -- an alert fires for s at e0.time; the tail alerts start a cooldown later
          have hlt' : (shouldTriggerAlert cd lt0 e0).1 s = some e0.time := by
            unfold shouldTriggerAlert at hfire ⊢
            by_cases hempty : e0.sourceID = ""
            · simp [hempty] at hfire
            · simp only [hempty, if_false] at hfire ⊢
              rcases hcase : lt0 e0.sourceID with _ | last
              · simp [hcase, setLT, hs]
              · simp only [hcase] at hfire ⊢
                by_cases hcool : e0.time - last < cd
                · simp [hcool] at hfire
                · simp [hcool, setLT, hs]
          have htail := ih (shouldTriggerAlert cd lt0 e0).1 hm.2 hbrest
          have hafter := alerts_after_lt cd rest (shouldTriggerAlert cd lt0 e0).1
            hm.2 hbrest s
          simp only [hfire, if_true, hs]
          have hred : List.filter (fun a => decide (a.1 = s)) [(s, e0.time)] =
              [(s, e0.time)] := by simp
          rw [hred]
          simp only [List.map_cons, List.map_nil, List.cons_append,
            List.nil_append]
          rw [List.chain'_cons']
          refine ⟨?_, htail⟩
          intro t2 ht2
          have ht2mem : t2 ∈ alertsFor s
              (processTrace cd (shouldTriggerAlert cd lt0 e0).1 rest).2 :=
            List.mem_of_mem_head? ht2
          have := hafter t2 ht2mem e0.time hlt'
          omega
        · simpa [hfire, hs, alertsFor] using
            ih (shouldTriggerAlert cd lt0 e0).1 hm.2 hbrest
  · -- the gate-passing update happens regardless of the condition outcome
    unfold shouldTriggerAlert
    simp only [hsrc, if_false]
    rcases hcase : lt e.sourceID with _ | last
    · simp [setLT]
    · have := hgate last hcase
      have hnot : ¬ e.time - last < cd := by omega
      simp [hnot, setLT]

/-- Witness for C1: a rule with a 60-tick cooldown over four events from one
target (two condition hits inside the window, one condition miss, one hit
after the window) produces alerts spaced by at least 60, and a gate-passing
event with a false condition still updates the map. -/
theorem cooldown_spacing_witness :
    List.Pairwise (fun e1 e2 => e1.time ≤ e2.time)
      [AMEvent.mk "t1" 0 true, AMEvent.mk "t1" 10 true,
       AMEvent.mk "t1" 30 false, AMEvent.mk "t1" 70 true] ∧
    List.Chain' (fun t1 t2 => t1 + 60 ≤ t2)
      (alertsFor "t1" (processTrace 60 (fun _ => none)
        [AMEvent.mk "t1" 0 true, AMEvent.mk "t1" 10 true,
         AMEvent.mk "t1" 30 false, AMEvent.mk "t1" 70 true]).2) ∧
    (shouldTriggerAlert 60 (setLT (fun _ => none) "t1" 0)
      (AMEvent.mk "t1" 100 false)).1 "t1" = some 100 := by
  have hmono : List.Pairwise
      (fun e1 e2 : AMEvent => e1.time ≤ e2.time)
      [AMEvent.mk "t1" 0 true, AMEvent.mk "t1" 10 true,
       AMEvent.mk "t1" 30 false, AMEvent.mk "t1" 70 true] := by decide
  have h := cooldown_spacing 60
    [AMEvent.mk "t1" 0 true, AMEvent.mk "t1" 10 true,
     AMEvent.mk "t1" 30 false, AMEvent.mk "t1" 70 true] "t1" hmono
    (setLT (fun _ => none) "t1" 0) (AMEvent.mk "t1" 100 false)
    (by decide)
    (by intro last hl; simp [setLT] at hl; subst hl; decide)
  exact ⟨hmono, h.1, h.2⟩

/-! Probe assertion evaluation (monitoring engine, `checkAssertions`). -/

/-- One element of a target's `response_rules` array. -/
structure ResponseRule where
  type : String
  path : String
  value : String
  deriving Repr, DecidableEq

/-- Substring containment on character lists, the semantics of Go's
`bytes.Contains` / `strings.Contains` for the captured body. -/
def bytesContains (haystack needle : String) : Bool :=
  (List.range (haystack.toList.length + 1)).any
    (fun i => needle.toList.isPrefixOf (haystack.toList.drop i))

/-- The monitoring engine's `checkAssertions`.  `responseRules = none` models a
`response_rules` document that `json.Unmarshal` rejects.  Mirrors the source's
switch: a `contains` rule tests the captured body, while the `json_path_exists`
and `regex` cases are empty stubs and any other rule type falls through the
switch, so all three pass unconditionally. -/
def checkAssertions (expectedStatus : List Int)
    (responseRules : Option (List ResponseRule))
    (statusCode : Int) (body : String) : Bool :=
  if !(expectedStatus.any (fun expected => statusCode = expected)) then false
  else
    match responseRules with
    | none => false
    | some rules =>
      rules.all (fun rule =>
        if rule.type = "json_path_exists" then true
        else if rule.type = "contains" then bytesContains body rule.value
        else if rule.type = "regex" then true
        else true)

/-- C2 (divergence record): the source's `checkAssertions` does enforce status
membership, `contains` rules, and rejection of a malformed rules document, but
it passes `json_path_exists` rules on a body that is not JSON, passes `regex`
rules without matching, and passes rules of unknown type — the
`json_path_exists` and `regex` switch cases are empty stubs and there is no
default case — where the claim requires all three to fail the assertion. -/
theorem checkAssertions_stub_rules :
    checkAssertions [200] (some [⟨"json_path_exists", "$.missing", ""⟩])
      200 "plain text, not json" = true ∧
    checkAssertions [200] (some [⟨"regex", "", "^does-not-match$"⟩])
      200 "plain text" = true ∧
    checkAssertions [200] (some [⟨"mystery_rule_type", "", ""⟩])
      200 "body" = true ∧
    checkAssertions [200] none 200 "anything" = false ∧
    checkAssertions [200] (some [⟨"contains", "", "ok"⟩]) 200 "all ok" = true ∧
    checkAssertions [200] (some [⟨"contains", "", "ok"⟩]) 200 "down" = false ∧
    checkAssertions [200, 204] (some []) 500 "x" = false := by decide

/-! Alert correlation engine (internal/alert/correlation.go). -/

/-- Value of a correlation condition (`Value interface{}`): a scalar string or
a list of strings for the `in` operator. -/
inductive CondValue where
  | str (s : String)
  | vals (l : List String)
  deriving Repr, DecidableEq

/-- A correlation condition `{Field, Operator, Value}`. -/
structure CorrelationCondition where
  field : String
  operator : String
  value : CondValue
  deriving Repr, DecidableEq

/-- A correlation rule. `timeWindow` is a duration in the same integer time
unit as alert creation instants. -/
structure CorrelationRule where
  id : String
  conditions : List CorrelationCondition
  groupBy : List String
  minCount : Nat
  timeWindow : Int
  deriving Repr, DecidableEq

/-- An alert as the correlation engine reads it: the three scalar fields it
matches on, the details map (string-valued entries), and the creation time. -/
structure CAlert where
  type : String
  source : String
  severity : String
  details : List (String × String)
  createdAt : Int
  deriving Repr, DecidableEq

/-- Field extraction of `matchesCondition` / `generateGroupKey`: the three
named fields, otherwise a lookup in the details map. -/
def fieldValueOf (alert : CAlert) (field : String) : Option String :=
  if field = "type" then some alert.type
  else if field = "source" then some alert.source
  else if field = "severity" then some alert.severity
  else alert.details.lookup field

/-- internal/alert/correlation.go, `matchesCondition`.  A missing field fails;
`equals` is value equality, `contains` substring matching on strings, `in`
membership in a list value; any other operator falls through to false. -/
def matchesCondition (alert : CAlert) (cond : CorrelationCondition) : Bool :=
  match fieldValueOf alert cond.field with
  | none => false
  | some v =>
    if cond.operator = "equals" then
      match cond.value with
      | CondValue.str s => v = s
      | CondValue.vals _ => false
    else if cond.operator = "contains" then
      match cond.value with
      | CondValue.str pat => bytesContains v pat
      | CondValue.vals _ => false
    else if cond.operator = "in" then
      match cond.value with
      | CondValue.vals l => l.any (fun x => x = v)
      | CondValue.str _ => false
    else false

/-- internal/alert/correlation.go, `matchesRule`: all conditions must hold. -/
def matchesRule (alert : CAlert) (rule : CorrelationRule) : Bool :=
  rule.conditions.all (matchesCondition alert)

/-- internal/alert/correlation.go, `generateGroupKey`: the rule id and the
grouping-field values joined with ":". -/
def generateGroupKey (alert : CAlert) (rule : CorrelationRule) : String :=
  String.intercalate ":" (rule.id :: rule.groupBy.map (fun field =>
    if field = "type" then alert.type
    else if field = "source" then alert.source
    else if field = "severity" then alert.severity
    else ((alert.details.lookup field).getD "")))

/-- An alert group.  `score` is kept exact as a rational in place of the
source's float64. -/
structure AlertGroup where
  id : String
  rule : CorrelationRule
  alerts : List CAlert
  firstSeen : Int
  lastSeen : Int
  status : String
  score : ℚ
  deriving Repr, DecidableEq

/-- internal/alert/correlation.go, `getOrCreateGroup`: look the key up in
`activeGroups`; a fresh group starts active and empty with `FirstSeen = now`. -/
def getOrCreateGroup (groups : List (String × AlertGroup)) (key : String)
    (rule : CorrelationRule) (now : Int) : AlertGroup :=
  match groups.lookup key with
  | some g => g
  | none => ⟨key, rule, [], now, 0, "active", 0⟩

/-- internal/alert/correlation.go, `updateGroupStatus`: drop alerts at or
before `now - time_window`, then set status (critical when the count reaches
`min_count`) and score (count divided by `min_count`). -/
def updateGroupStatus (now : Int) (group : AlertGroup) : AlertGroup :=
  let cutoff := now - group.rule.timeWindow
  let activeAlerts := group.alerts.filter (fun a => cutoff < a.createdAt)
  { group with
    alerts := activeAlerts,
    status := if group.rule.minCount ≤ activeAlerts.length then "critical"
              else "active",
    score := (activeAlerts.length : ℚ) / (group.rule.minCount : ℚ) }

/-- Store the updated group back into `activeGroups` under its key. -/
def insertGroup (groups : List (String × AlertGroup)) (key : String)
    (g : AlertGroup) : List (String × AlertGroup) :=
  match groups.lookup key with
  | some _ => groups.map (fun p => if p.1 = key then (key, g) else p)
  | none => groups ++ [(key, g)]

/-- internal/alert/correlation.go, `ProcessAlert`: for every matching rule,
upsert the group under the generated key, append the alert, set `last_seen`
to the alert's creation time, and recompute status and score.  Returns the
new `activeGroups` and the list of updated groups. -/
def ProcessAlert (rules : List CorrelationRule)
    (groups : List (String × AlertGroup)) (alert : CAlert) (now : Int) :
    List (String × AlertGroup) × List AlertGroup :=
  rules.foldl (fun acc rule =>
    if matchesRule alert rule then
      let key := generateGroupKey alert rule
      let g0 := getOrCreateGroup acc.1 key rule now
      let g1 := { g0 with alerts := g0.alerts ++ [alert],
                          lastSeen := alert.createdAt }
      let g2 := updateGroupStatus now g1
      (insertGroup acc.1 key g2, acc.2 ++ [g2])
    else acc) (groups, [])

/-- C7: after `updateGroupStatus`, the group's score equals the number of
alerts currently in the group divided by the rule's `min_count`, and the
status is critical exactly when that count reaches `min_count`; concretely, a
rule grouping by source with `min_count = 3` and a 600-unit window, fed three
alerts from source svc-A within 300 units, yields exactly one group, critical,
with score 1. -/
theorem ProcessAlert_group_score :
    (∀ (now : Int) (group : AlertGroup),
      (updateGroupStatus now group).score =
        ((updateGroupStatus now group).alerts.length : ℚ) /
          (group.rule.minCount : ℚ) ∧
      ((updateGroupStatus now group).status = "critical" ↔
        group.rule.minCount ≤ (updateGroupStatus now group).alerts.length)) ∧
    (let rule : CorrelationRule := ⟨"r1", [], ["source"], 3, 600⟩
     let a1 : CAlert := ⟨"monitoring", "svc-A", "high", [], 0⟩
     let a2 : CAlert := ⟨"monitoring", "svc-A", "high", [], 120⟩
     let a3 : CAlert := ⟨"monitoring", "svc-A", "high", [], 280⟩
     let st1 := ProcessAlert [rule] [] a1 0
     let st2 := ProcessAlert [rule] st1.1 a2 120
     let st3 := ProcessAlert [rule] st2.1 a3 280
     st3.1.length = 1 ∧
     (st3.1.map (fun p => (p.2.status, p.2.score, p.2.alerts.length))) =
       [("critical", (1 : ℚ), 3)]) := by
  constructor
  · intro now group
    constructor
    · rfl
    · simp only [updateGroupStatus]
      by_cases h : group.rule.minCount ≤
          (group.alerts.filter
            (fun a => now - group.rule.timeWindow < a.createdAt)).length
      · simp [h]
      · simp [h]
  · simp only [ProcessAlert, matchesRule, List.all_nil, generateGroupKey,
      getOrCreateGroup, insertGroup, updateGroupStatus, fieldValueOf,
      List.foldl, List.lookup, List.filter, List.map, List.length,
      String.intercalate]
    norm_num

/-! Notification rate limiting (notification manager, `RateLimiter`). -/

/-- The notification manager's per-source token bucket; the source's float64
fields are modelled as exact rationals, instants as rationals in seconds. -/
structure RateLimiter where
  tokens : ℚ
  rate : ℚ
  burst : ℚ
  lastUpdate : ℚ
  deriving Repr, DecidableEq

/-- The source's `RateLimiter.Allow`: refill `elapsed * rate` tokens capped at
`burst`, stamp `lastUpdate`, then consume one token when at least one is
available. -/
def RateLimiter.Allow (rl : RateLimiter) (now : ℚ) : RateLimiter × Bool :=
  let elapsed := now - rl.lastUpdate
  let tokens := min rl.burst (rl.tokens + elapsed * rl.rate)
  if 1 ≤ tokens then
    ({ rl with tokens := tokens - 1, lastUpdate := now }, true)
  else
    ({ rl with tokens := tokens, lastUpdate := now }, false)

/-- The limiter `shouldSend` installs for a source on first use: zero tokens,
`rate = 1 / min_interval` per second, `burst = 3`. -/
def newSourceLimiter (minInterval now : ℚ) : RateLimiter :=
  ⟨0, 1 / minInterval, 3, now⟩

/-- A sequence of `Allow` calls at the given instants; returns the final
limiter state and how many calls were granted. -/
def runLimiter (rl : RateLimiter) : List ℚ → RateLimiter × Nat
  | [] => (rl, 0)
  | t :: ts =>
    let step := rl.Allow t
    let rest := runLimiter step.1 ts
    (rest.1, (if step.2 then 1 else 0) + rest.2)

theorem Allow_step_facts (rl : RateLimiter) (now : ℚ) :
    (rl.Allow now).1.rate = rl.rate ∧
    (rl.Allow now).1.burst = rl.burst ∧
    (rl.Allow now).1.lastUpdate = now ∧
    (rl.Allow now).1.tokens + (if (rl.Allow now).2 then (1 : ℚ) else 0) =
      min rl.burst (rl.tokens + (now - rl.lastUpdate) * rl.rate) := by
  unfold RateLimiter.Allow
  by_cases h : (1 : ℚ) ≤ min rl.burst (rl.tokens + (now - rl.lastUpdate) * rl.rate)
  · simp [h]
  · simp [h]

theorem Allow_tokens_nonneg (rl : RateLimiter) (now : ℚ)
    (hr : 0 ≤ rl.rate) (ht : 0 ≤ rl.tokens) (hb : 0 ≤ rl.burst)
    (hlu : rl.lastUpdate ≤ now) : 0 ≤ (rl.Allow now).1.tokens := by
  have hnn : 0 ≤ rl.tokens + (now - rl.lastUpdate) * rl.rate := by nlinarith
  unfold RateLimiter.Allow
  by_cases h : (1 : ℚ) ≤ min rl.burst (rl.tokens + (now - rl.lastUpdate) * rl.rate)
  · simp only [h, if_true]
    linarith
  · simp only [h, if_false]
    exact le_min hb hnn

theorem Allow_tokens_le_burst (rl : RateLimiter) (now : ℚ) :
    (rl.Allow now).1.tokens ≤ rl.burst := by
  unfold RateLimiter.Allow
  by_cases h : (1 : ℚ) ≤ min rl.burst (rl.tokens + (now - rl.lastUpdate) * rl.rate)
  · simp only [h, if_true]
    have := min_le_left rl.burst (rl.tokens + (now - rl.lastUpdate) * rl.rate)
    linarith
  · simp only [h, if_false]
    exact min_le_left _ _

theorem runLimiter_burst_eq : ∀ (ts : List ℚ) (rl : RateLimiter),
    (runLimiter rl ts).1.burst = rl.burst := by
  intro ts
  induction ts with
  | nil => intro rl; rfl
  | cons t ts ih =>
    intro rl
    simp only [runLimiter]
    rw [ih]
    exact (Allow_step_facts rl t).2.1

theorem runLimiter_tokens_le_burst : ∀ (ts : List ℚ) (rl : RateLimiter),
    rl.tokens ≤ rl.burst → (runLimiter rl ts).1.tokens ≤ rl.burst := by
  intro ts
  induction ts with
  | nil => intro rl h; exact h
  | cons t ts ih =>
    intro rl _
    simp only [runLimiter]
    have h1 := ih (rl.Allow t).1 (by rw [(Allow_step_facts rl t).2.1]; exact Allow_tokens_le_burst rl t)
    rw [(Allow_step_facts rl t).2.1] at h1
    exact h1

/-- Token accounting: each granted call consumes one whole token and refills
never add more than elapsed-time times rate, so the number of grants is
bounded by the initial tokens plus the refill budget up to a deadline `T`. -/
theorem runLimiter_count_le (T : ℚ) : ∀ (ts : List ℚ) (rl : RateLimiter),
    0 ≤ rl.rate → 0 ≤ rl.tokens → 0 ≤ rl.burst →
    List.Chain' (· ≤ ·) (rl.lastUpdate :: ts) →
    (∀ t ∈ ts, t ≤ T) → rl.lastUpdate ≤ T →
    ((runLimiter rl ts).2 : ℚ) ≤ rl.tokens + rl.rate * (T - rl.lastUpdate) := by
  intro ts
  induction ts with
  | nil =>
    intro rl hr ht _ _ _ hlu
    simp only [runLimiter, Nat.cast_zero]
    nlinarith
  | cons t ts ih =>
    intro rl hr ht hb hchain hle hlu
    rw [List.chain'_cons] at hchain
    obtain ⟨hlut, hchain'⟩ := hchain
    have hf := Allow_step_facts rl t
    have h0' : 0 ≤ (rl.Allow t).1.tokens := Allow_tokens_nonneg rl t hr ht hb hlut
    have htT : t ≤ T := hle t (by simp)
    have hrest := ih (rl.Allow t).1 (by rw [hf.1]; exact hr) h0'
      (by rw [hf.2.1]; exact hb)
      (by rw [hf.2.2.1]; exact hchain')
      (fun x hx => hle x (by simp [hx])) (by rw [hf.2.2.1]; exact htT)
    rw [hf.1, hf.2.2.1] at hrest
    simp only [runLimiter, Nat.cast_add]
    have hmin : min rl.burst (rl.tokens + (t - rl.lastUpdate) * rl.rate) ≤
        rl.tokens + (t - rl.lastUpdate) * rl.rate := min_le_right _ _
    rcases hg : (rl.Allow t).2 with _ | _
    · rw [hg] at hf
      simp only [if_false, Bool.false_eq_true, Nat.cast_zero]
      have := hf.2.2.2
      simp only [if_false, Bool.false_eq_true, add_zero] at this
      nlinarith
    · rw [hg] at hf
      simp only [if_true, Nat.cast_one]
      have := hf.2.2.2
      simp only [if_true] at this
      nlinarith

/-- C4: the limiter `shouldSend` builds for a source is a token bucket with
`rate = 1 / min_interval` tokens per second, `burst = 3` and zero initial
tokens; over any window `[W, W + dt]` whose calls begin with this empty
bucket, the number of granted `Allow` calls is at most
`burst + floor(rate * dt)`, and the token count never exceeds `burst`. -/
theorem rateLimiter_window_bound (minInterval W dt lu : ℚ) (ts : List ℚ)
    (hmi : 0 < minInterval)
    (hchain : List.Chain' (· ≤ ·) (lu :: ts))
    (hwin : ∀ t ∈ ts, W ≤ t ∧ t ≤ W + dt) :
    (newSourceLimiter minInterval lu).tokens = 0 ∧
    (newSourceLimiter minInterval lu).burst = 3 ∧
    (newSourceLimiter minInterval lu).rate = 1 / minInterval ∧
    (runLimiter (newSourceLimiter minInterval lu) ts).2 ≤
      3 + Nat.floor (dt / minInterval) ∧
    (runLimiter (newSourceLimiter minInterval lu) ts).1.tokens ≤ 3 := by
  have hrate : (0 : ℚ) ≤ 1 / minInterval := by positivity
  refine ⟨rfl, rfl, rfl, ?_, ?_⟩
  · rcases ts with _ | ⟨t1, rest⟩
    · simp [runLimiter]
    · rw [List.chain'_cons] at hchain
      obtain ⟨hlut, hchain'⟩ := hchain
      have hdt : 0 ≤ dt := by
        have h := hwin t1 (by simp)
        linarith
      set rl0 := newSourceLimiter minInterval lu with hrl0
      have hrateq : rl0.rate = 1 / minInterval := by simp [hrl0, newSourceLimiter]
      have hburst : rl0.burst = 3 := by simp [hrl0, newSourceLimiter]
      have htok : rl0.tokens = 0 := by simp [hrl0, newSourceLimiter]
      have hb0 : (0 : ℚ) ≤ rl0.burst := by rw [hburst]; norm_num
      have hf := Allow_step_facts rl0 t1
      have h0' : 0 ≤ (rl0.Allow t1).1.tokens :=
        Allow_tokens_nonneg rl0 t1 (by rw [hrateq]; exact hrate)
          (by rw [htok]) hb0 hlut
      have ht1 := hwin t1 (by simp)
      have hrest := runLimiter_count_le (W + dt) rest (rl0.Allow t1).1
        (by rw [hf.1, hrateq]; exact hrate) h0' (by rw [hf.2.1]; exact hb0)
        (by rw [hf.2.2.1]; exact hchain')
        (fun x hx => (hwin x (by simp [hx])).2) (by rw [hf.2.2.1]; exact ht1.2)
      rw [hf.1, hf.2.2.1, hrateq] at hrest
      have hq : (1 / minInterval) * (W + dt - t1) ≤ (1 / minInterval) * dt := by
        apply mul_le_mul_of_nonneg_left _ hrate
        linarith [ht1.1]
      have hmle : min rl0.burst (rl0.tokens + (t1 - rl0.lastUpdate) * rl0.rate) ≤ 3 := by
        have h := min_le_left rl0.burst (rl0.tokens + (t1 - rl0.lastUpdate) * rl0.rate)
        rw [hburst] at h
        exact h
      have hcount : (((runLimiter rl0 (t1 :: rest)).2 : ℚ)) ≤
          3 + (1 / minInterval) * dt := by
        simp only [runLimiter, Nat.cast_add]
        rcases hg : (rl0.Allow t1).2 with _ | _
        · have h4 := hf.2.2.2
          rw [hg] at h4
          simp only [Bool.false_eq_true, if_false, add_zero] at h4
          simp only [hg, Bool.false_eq_true, if_false, Nat.cast_zero]
          linarith
        · have h4 := hf.2.2.2
          rw [hg] at h4
          simp only [if_true] at h4
          simp only [hg, if_true, Nat.cast_one]
          linarith
      have hfloor : (runLimiter rl0 (t1 :: rest)).2 ≤
          Nat.floor ((3 : ℚ) + (1 / minInterval) * dt) := by
        apply Nat.le_floor
        exact_mod_cast hcount
      have hsplit : Nat.floor ((3 : ℚ) + (1 / minInterval) * dt) =
          3 + Nat.floor (dt / minInterval) := by
        rw [add_comm ((3 : ℚ)) _, one_div, inv_mul_eq_div]
        rw [show ((3 : ℚ)) = ((3 : ℕ) : ℚ) from by norm_num]
        rw [Nat.floor_add_nat (by positivity) 3]
        exact Nat.add_comm _ _
      rw [hsplit] at hfloor
      exact hfloor
  · have h := runLimiter_tokens_le_burst ts (newSourceLimiter minInterval lu)
      (by norm_num [newSourceLimiter])
    simpa [newSourceLimiter] using h

/-- Witness for C4: a five-call burst inside a four-second window against a
fresh limiter with a ten-second minimum interval is granted at most
`3 + floor(0.4) = 3` times, and the final token count stays at most 3. -/
theorem rateLimiter_window_bound_witness :
    (0 : ℚ) < 10 ∧
    (runLimiter (newSourceLimiter 10 0) [0, 1, 2, 3, 4]).2 ≤
      3 + Nat.floor ((4 : ℚ) / 10) ∧
    (runLimiter (newSourceLimiter 10 0) [0, 1, 2, 3, 4]).1.tokens ≤ 3 := by
  have h := rateLimiter_window_bound 10 0 4 0 [0, 1, 2, 3, 4]
    (by norm_num)
    (by simp only [List.chain'_cons, List.chain'_singleton, and_true]
        norm_num)
    (by intro t ht
        fin_cases ht <;> norm_num)
  exact ⟨by norm_num, h.2.2.2.1, h.2.2.2.2⟩

/-! Notification dispatch (notification manager, `Send`). -/

/-- The notification manager's `sendToChannel`: the three known channels
dispatch to their transport, whose outcome is modelled by the oracle `io`
(`none` for success, `some msg` for the error); any other channel name is the
`unsupported notification channel` error. -/
def sendToChannel (io : String → Option String) (channel : String) :
    Option String :=
  if channel = "email" ∨ channel = "slack" ∨ channel = "webhook" then io channel
  else some ("unsupported notification channel: " ++ channel)

/-- The notification manager's `Send`: consult the source's rate limiter via
`shouldSend`; on refusal return success without dispatching; otherwise
dispatch to every requested channel, collect the per-channel errors, and
succeed exactly when no channel errored.  Returns the new limiter state, the
list of channels actually dispatched to, and the success flag. -/
def Send (rl : RateLimiter) (now : ℚ) (io : String → Option String)
    (channels : List String) : RateLimiter × List String × Bool :=
  let gate := rl.Allow now
  if gate.2 = false then (gate.1, [], true)
  else
    let errs := channels.filterMap (sendToChannel io)
    (gate.1, channels, errs.isEmpty)

/-- C8: when the limiter refuses a token, `Send` returns success and
dispatches to no channel; when it grants one, `Send` dispatches to every
requested channel (one failing channel never prevents the others from being
attempted) and returns success exactly when every channel succeeded. -/
theorem Send_rate_limit_and_aggregation (rl : RateLimiter) (now : ℚ)
    (io : String → Option String) (channels : List String) :
    ((rl.Allow now).2 = false →
      (Send rl now io channels).2.1 = [] ∧
      (Send rl now io channels).2.2 = true) ∧
    ((rl.Allow now).2 = true →
      (Send rl now io channels).2.1 = channels ∧
      ((Send rl now io channels).2.2 = true ↔
        ∀ ch ∈ channels, sendToChannel io ch = none)) := by
  constructor
  · intro hg
    simp [Send, hg]
  · intro hg
    refine ⟨by simp [Send, hg], ?_⟩
    simp only [Send, hg, Bool.true_eq_false, if_false]
    rw [List.isEmpty_iff, List.filterMap_eq_nil_iff]

/-- Witness for C8: a limiter holding two tokens grants the call; with a
failing slack transport, both channels are dispatched and the aggregate
outcome is failure, as `Send_rate_limit_and_aggregation` asserts. -/
theorem Send_rate_limit_witness :
    (RateLimiter.Allow ⟨2, 1, 3, 0⟩ 0).2 = true ∧
    (Send ⟨2, 1, 3, 0⟩ 0
      (fun ch => if ch = "slack" then some "boom" else none)
      ["email", "slack"]).2.1 = ["email", "slack"] ∧
    ((Send ⟨2, 1, 3, 0⟩ 0
      (fun ch => if ch = "slack" then some "boom" else none)
      ["email", "slack"]).2.2 = true ↔
      ∀ ch ∈ ["email", "slack"],
        sendToChannel (fun ch => if ch = "slack" then some "boom" else none)
          ch = none) := by
  have hgate : (RateLimiter.Allow ⟨2, 1, 3, 0⟩ 0).2 = true := by
    norm_num [RateLimiter.Allow, min_def]
  have h := Send_rate_limit_and_aggregation ⟨2, 1, 3, 0⟩ 0
    (fun ch => if ch = "slack" then some "boom" else none)
    ["email", "slack"]
  exact ⟨hgate, (h.2 hgate).1, (h.2 hgate).2⟩

/-! Cosine distance (internal/ai/clustering.go). -/

/-- The `dotProduct` accumulator of internal/ai/clustering.go
`cosineDistance`: the loop runs over the indices of `a`. -/
noncomputable def dotProduct (a b : List ℝ) : ℝ :=
  ∑ i ∈ Finset.range a.length, a.getD i 0 * b.getD i 0

/-- The `normB` accumulator of `cosineDistance`: the squared norm of `b`
summed, like the whole loop, over the indices of `a`.  The `normA`
accumulator is `dotProduct a a`. -/
noncomputable def normSqB (a b : List ℝ) : ℝ :=
  ∑ i ∈ Finset.range a.length, b.getD i 0 * b.getD i 0

/-- internal/ai/clustering.go, `cosineDistance`.  A zero squared norm on
either side yields distance 1, otherwise the distance is one minus the cosine
similarity. -/
noncomputable def cosineDistance (a b : List ℝ) : ℝ :=
  if dotProduct a a = 0 ∨ normSqB a b = 0 then 1
  else 1 - dotProduct a b /
    (Real.sqrt (dotProduct a a) * Real.sqrt (normSqB a b))

/-- C9: for vectors of equal length the cosine distance lies in the interval
from 0 to 2; it is 0 for equal unit vectors, 1 for orthogonal vectors, and 1
whenever either vector has zero norm. -/
theorem cosineDistance_bounds (a b : List ℝ) (hlen : a.length = b.length) :
    (0 ≤ cosineDistance a b ∧ cosineDistance a b ≤ 2) ∧
    ((a = b ∧ dotProduct a a = 1) → cosineDistance a b = 0) ∧
    (dotProduct a b = 0 → cosineDistance a b = 1) ∧
    ((dotProduct a a = 0 ∨ normSqB a b = 0) → cosineDistance a b = 1) := by
  have hna : 0 ≤ dotProduct a a := by
    unfold dotProduct
    exact Finset.sum_nonneg (fun i _ => mul_self_nonneg _)
  have hnb : 0 ≤ normSqB a b := by
    unfold normSqB
    exact Finset.sum_nonneg (fun i _ => mul_self_nonneg _)
  have hcs : dotProduct a b * dotProduct a b ≤ dotProduct a a * normSqB a b := by
    have h := Finset.sum_mul_sq_le_sq_mul_sq (Finset.range a.length)
      (fun i => a.getD i 0) (fun i => b.getD i 0)
    unfold dotProduct normSqB
    simpa [pow_two] using h
  have habs : |dotProduct a b| ≤
      Real.sqrt (dotProduct a a) * Real.sqrt (normSqB a b) := by
    rw [← Real.sqrt_mul hna]
    rw [← Real.sqrt_mul_self (abs_nonneg (dotProduct a b))]
    apply Real.sqrt_le_sqrt
    rw [abs_mul_abs_self]
    exact hcs
  refine ⟨?_, ?_, ?_, ?_⟩
  · unfold cosineDistance
    by_cases h : dotProduct a a = 0 ∨ normSqB a b = 0
    · rw [if_pos h]
      norm_num
    · rw [if_neg h]
      push_neg at h
      have hapos : 0 < dotProduct a a := lt_of_le_of_ne hna (Ne.symm h.1)
      have hbpos : 0 < normSqB a b := lt_of_le_of_ne hnb (Ne.symm h.2)
      have hs : 0 < Real.sqrt (dotProduct a a) * Real.sqrt (normSqB a b) :=
        mul_pos (Real.sqrt_pos.mpr hapos) (Real.sqrt_pos.mpr hbpos)
      have hle : dotProduct a b /
          (Real.sqrt (dotProduct a a) * Real.sqrt (normSqB a b)) ≤ 1 :=
        (div_le_one hs).mpr ((le_abs_self _).trans habs)
      have hge : -(1 : ℝ) ≤ dotProduct a b /
          (Real.sqrt (dotProduct a a) * Real.sqrt (normSqB a b)) := by
        rw [neg_le, ← neg_div]
        exact (div_le_one hs).mpr ((neg_le_abs _).trans habs)
      constructor <;> linarith
  · rintro ⟨hab, hunit⟩
    subst hab
    have hnn : normSqB a a = dotProduct a a := rfl
    unfold cosineDistance
    rw [if_neg (by rw [hnn, hunit]; norm_num)]
    rw [hnn, hunit, Real.sqrt_one]
    norm_num
  · intro hdot
    unfold cosineDistance
    by_cases h : dotProduct a a = 0 ∨ normSqB a b = 0
    · rw [if_pos h]
    · rw [if_neg h, hdot]
      norm_num
  · intro h
    unfold cosineDistance
    rw [if_pos h]

/-- Witness for C9: the orthogonal pair (1,0) and (0,1) has cosine distance
exactly 1, via `cosineDistance_bounds`. -/
theorem cosineDistance_bounds_witness :
    ([(1 : ℝ), 0].length = [(0 : ℝ), 1].length) ∧
    cosineDistance [(1 : ℝ), 0] [(0 : ℝ), 1] = 1 := by
  have h := cosineDistance_bounds [(1 : ℝ), 0] [(0 : ℝ), 1] rfl
  refine ⟨rfl, h.2.2.1 ?_⟩
  unfold dotProduct
  simp [Finset.sum_range_succ]

/-! Error-message pattern extraction (internal/ai/analyzer.go,
`extractErrorPattern`).  The source applies four `ReplaceAllString` passes in
order: digit runs to N, UUIDs to UUID, ISO-8601 timestamps to TIMESTAMP, and
email addresses to EMAIL.  Each pass is embedded as a left-to-right scanner
with Go's leftmost-first, greedy matching semantics; fuel (the input length)
makes the scanners structurally recursive. -/

/-- One pass of `ReplaceAllString` for the pattern `\d+`: every maximal ASCII
digit run becomes a single N.  `inRun` tracks being inside a run. -/
def digitRepAux : Bool → List Char → List Char
  | _, [] => []
  | inRun, c :: rest =>
    if c.isDigit then
      (if inRun then [] else ['N']) ++ digitRepAux true rest
    else c :: digitRepAux false rest

/-- Digit-run replacement, the analyzer's first pass. -/
def digitRep (l : List Char) : List Char := digitRepAux false l

/-- The character class of the UUID regex, Go's `[0-9a-fA-F]`. -/
def isHexChar (c : Char) : Bool :=
  c.isDigit || ('a' ≤ c && c ≤ 'f') || ('A' ≤ c && c ≤ 'F')

/-- Consume exactly `n` hex characters, returning the remainder. -/
def takeHexN : Nat → List Char → Option (List Char)
  | 0, l => some l
  | _ + 1, [] => none
  | n + 1, c :: l => if isHexChar c then takeHexN n l else none

/-- Consume one expected literal character. -/
def expectChar (x : Char) : List Char → Option (List Char)
  | [] => none
  | c :: l => if c = x then some l else none

/-- Match of the UUID regex
`[0-9a-fA-F]{8}-[0-9a-fA-F]{4}-[0-9a-fA-F]{4}-[0-9a-fA-F]{4}-[0-9a-fA-F]{12}`
at the head of the input, returning the remainder after the 36 consumed
characters. -/
def matchUUID (l : List Char) : Option (List Char) :=
  ((((((((takeHexN 8 l).bind (expectChar '-')).bind (takeHexN 4)).bind
    (expectChar '-')).bind (takeHexN 4)).bind (expectChar '-')).bind
    (takeHexN 4)).bind (expectChar '-')).bind (takeHexN 12)

/-- Scanner for the UUID pass: at each position try `matchUUID`; on a match
emit UUID and continue after it, otherwise emit the character. -/
def uuidRepAux : Nat → List Char → List Char
  | 0, l => l
  | _ + 1, [] => []
  | fuel + 1, c :: rest =>
    (matchUUID (c :: rest)).elim (c :: uuidRepAux fuel rest)
      (fun rest' => 'U' :: 'U' :: 'I' :: 'D' :: uuidRepAux fuel rest')

/-- UUID replacement, the analyzer's second pass. -/
def uuidRep (l : List Char) : List Char := uuidRepAux l.length l

/-- Consume exactly `n` ASCII digits, returning the remainder. -/
def takeDigitsN : Nat → List Char → Option (List Char)
  | 0, l => some l
  | _ + 1, [] => none
  | n + 1, c :: l => if c.isDigit then takeDigitsN n l else none

/-- The timestamp regex's date-time separator class `[T ]`. -/
def expectTorSpace : List Char → Option (List Char)
  | [] => none
  | c :: l => if c = 'T' ∨ c = ' ' then some l else none

/-- The optional greedy fractional-seconds group `(?:\.\d+)?`: consume a dot
followed by a maximal nonempty digit run, or nothing. -/
def matchFrac (l : List Char) : List Char :=
  match l with
  | '.' :: c :: rest =>
    if c.isDigit then List.dropWhile Char.isDigit (c :: rest) else l
  | _ => l

/-- The optional timezone group `(?:Z|[+-]\d{2}:?\d{2})?` with greedy
alternation and optional colon; on failure of the signed form the group
consumes nothing. -/
def matchTZ (l : List Char) : List Char :=
  match l with
  | 'Z' :: rest => rest
  | c :: rest =>
    if c = '+' ∨ c = '-' then
      match takeDigitsN 2 rest with
      | some r2 =>
        match r2 with
        | ':' :: r3 =>
          match takeDigitsN 2 r3 with
          | some r4 => r4
          | none => l
        | _ =>
          match takeDigitsN 2 r2 with
          | some r4 => r4
          | none => l
      | none => l
    else l
  | [] => l

/-- Match of the timestamp regex
`\d{4}-\d{2}-\d{2}[T ]\d{2}:\d{2}:\d{2}(?:\.\d+)?(?:Z|[+-]\d{2}:?\d{2})?`
at the head of the input. -/
def matchTS (l : List Char) : Option (List Char) :=
  (((((((((((takeDigitsN 4 l).bind (expectChar '-')).bind
    (takeDigitsN 2)).bind (expectChar '-')).bind (takeDigitsN 2)).bind
    expectTorSpace).bind (takeDigitsN 2)).bind (expectChar ':')).bind
    (takeDigitsN 2)).bind (expectChar ':')).bind (takeDigitsN 2)).map
    (fun r => matchTZ (matchFrac r))

/-- Scanner for the timestamp pass. -/
def tsRepAux : Nat → List Char → List Char
  | 0, l => l
  | _ + 1, [] => []
  | fuel + 1, c :: rest =>
    (matchTS (c :: rest)).elim (c :: tsRepAux fuel rest)
      (fun rest' => "TIMESTAMP".toList ++ tsRepAux fuel rest')

/-- Timestamp replacement, the analyzer's third pass. -/
def tsRep (l : List Char) : List Char := tsRepAux l.length l

/-- Local-part class of the email regex, Go's `[a-zA-Z0-9._%+-]`. -/
def isLocalChar (c : Char) : Bool :=
  c.isAlpha || c.isDigit || c = '.' || c = '_' || c = '%' || c = '+' || c = '-'

/-- Domain class of the email regex, Go's `[a-zA-Z0-9.-]`. -/
def isDomainChar (c : Char) : Bool :=
  c.isAlpha || c.isDigit || c = '.' || c = '-'

/-- Greedy backtracking of `[a-zA-Z0-9.-]+\.[a-zA-Z]{2,}` over the maximal
domain-class run `D`: the `+` gives characters back from the right, so the
split point is the rightmost dot (at index at least 1) followed by at least
two letters; returns how many characters of `D` the whole group consumes. -/
def domainScan (D : List Char) : Nat → Option Nat
  | 0 => none
  | j + 1 =>
    if D.getD (j + 1) ' ' = '.' ∧
        2 ≤ ((D.drop (j + 2)).takeWhile Char.isAlpha).length then
      some (j + 2 + ((D.drop (j + 2)).takeWhile Char.isAlpha).length)
    else domainScan D j

/-- Match of the email regex `[a-zA-Z0-9._%+-]+@[a-zA-Z0-9.-]+\.[a-zA-Z]{2,}`
at the head of the input: a maximal nonempty local part, a literal at sign,
then the domain group. -/
def matchEmail (l : List Char) : Option (List Char) :=
  let loc := l.takeWhile isLocalChar
  if loc.isEmpty then none
  else
    match l.drop loc.length with
    | '@' :: rest =>
      let D := rest.takeWhile isDomainChar
      match domainScan D (D.length - 1) with
      | some consumed => some (rest.drop consumed)
      | none => none
    | _ => none

/-- Scanner for the email pass. -/
def emailRepAux : Nat → List Char → List Char
  | 0, l => l
  | _ + 1, [] => []
  | fuel + 1, c :: rest =>
    (matchEmail (c :: rest)).elim (c :: emailRepAux fuel rest)
      (fun rest' => "EMAIL".toList ++ emailRepAux fuel rest')

/-- Email replacement, the analyzer's fourth pass. -/
def emailRep (l : List Char) : List Char := emailRepAux l.length l

/-- internal/ai/analyzer.go, `extractErrorPattern`: the four replacement
passes in source order — digits first, then UUIDs, timestamps, emails. -/
def extractErrorPattern (message : List Char) : List Char :=
  emailRep (tsRep (uuidRep (digitRep message)))

/-- Sanity checks of the individual passes against their regexes: a well-formed
timestamp (with and without fraction and zone), a well-formed UUID and a
well-formed email are each replaced when their pass runs on text that still
contains them. -/
theorem replacement_passes_sanity :
    tsRep "x 2024-01-02T03:04:05.123+05:30 y 2024-01-02 03:04:05Z z".toList =
      "x TIMESTAMP y TIMESTAMP z".toList ∧
    uuidRep "id 550e8400-e29b-41d4-a716-446655440000 done".toList =
      "id UUID done".toList ∧
    emailRep "mail someone_1%x@sub.example.com sent".toList =
      "mail EMAIL sent".toList := by decide

/-- C5 (divergence record): `extractErrorPattern` replaces digit runs before
the UUID and timestamp passes, which destroys the digit content those regexes
need, so on the spec's example input the code produces
`user N at N-N-NTN:N:NZ from EMAIL id NeN-eNb-NdN-aN-N` instead of the
claimed `user N at TIMESTAMP from EMAIL id UUID`. -/
theorem extractErrorPattern_spec_example :
    extractErrorPattern "user 42 at 2024-01-02T03:04:05Z from a@b.co id 550e8400-e29b-41d4-a716-446655440000".toList =
      "user N at N-N-NTN:N:NZ from EMAIL id NeN-eNb-NdN-aN-N".toList ∧
    extractErrorPattern "user 42 at 2024-01-02T03:04:05Z from a@b.co id 550e8400-e29b-41d4-a716-446655440000".toList ≠
      "user N at TIMESTAMP from EMAIL id UUID".toList := by decide

/-- Every character of the digit pass's output is a character of its input or
the replacement letter N. -/
theorem mem_digitRepAux : ∀ (b : Bool) (l : List Char) (c : Char),
    c ∈ digitRepAux b l → c ∈ l ∨ c = 'N' := by
  intro b l
  induction l generalizing b with
  | nil => intro c h; simp [digitRepAux] at h
  | cons x rest ih =>
    intro c h
    simp only [digitRepAux] at h
    by_cases hx : x.isDigit = true
    · rw [if_pos hx, List.mem_append] at h
      rcases h with h | h
      · rcases b with _ | _
        · simp at h
          right
          exact h
        · simp at h
      · rcases ih true c h with h | h
        · exact Or.inl (List.mem_cons_of_mem x h)
        · exact Or.inr h
    · rw [if_neg hx] at h
      rcases List.mem_cons.mp h with h | h
      · exact Or.inl (by simp [h])
      · rcases ih false c h with h | h
        · exact Or.inl (List.mem_cons_of_mem x h)
        · exact Or.inr h

/-- The digit pass leaves no digits behind. -/
theorem digitRepAux_no_digit : ∀ (b : Bool) (l : List Char) (c : Char),
    c ∈ digitRepAux b l → c.isDigit = false := by
  intro b l
  induction l generalizing b with
  | nil => intro c h; simp [digitRepAux] at h
  | cons x rest ih =>
    intro c h
    simp only [digitRepAux] at h
    by_cases hx : x.isDigit = true
    · rw [if_pos hx, List.mem_append] at h
      rcases h with h | h
      · rcases b with _ | _
        · simp at h
          subst h
          decide
        · simp at h
      · exact ih true c h
    · rw [if_neg hx] at h
      rcases List.mem_cons.mp h with h | h
      · subst h
        simpa using hx
      · exact ih false c h

/-- The digit pass is the identity on digit-free input. -/
theorem digitRepAux_id : ∀ (b : Bool) (l : List Char),
    (∀ c ∈ l, c.isDigit = false) → digitRepAux b l = l := by
  intro b l
  induction l generalizing b with
  | nil => intro _; rfl
  | cons x rest ih =>
    intro h
    have hx : x.isDigit = false := h x (by simp)
    simp only [digitRepAux, hx, Bool.false_eq_true, if_false]
    rw [ih false (fun c hc => h c (by simp [hc]))]

theorem takeHexN_subset : ∀ (n : Nat) (l r : List Char),
    takeHexN n l = some r → ∀ c ∈ r, c ∈ l := by
  intro n
  induction n with
  | zero =>
    intro l r h c hc
    simp only [takeHexN, Option.some_inj] at h
    exact h ▸ hc
  | succ n ih =>
    intro l r h c hc
    match l with
    | [] => simp [takeHexN] at h
    | x :: l' =>
      simp only [takeHexN] at h
      by_cases hx : isHexChar x = true
      · rw [if_pos hx] at h
        exact List.mem_cons_of_mem x (ih l' r h c hc)
      · rw [if_neg hx] at h
        cases h

theorem takeDigitsN_subset : ∀ (n : Nat) (l r : List Char),
    takeDigitsN n l = some r → ∀ c ∈ r, c ∈ l := by
  intro n
  induction n with
  | zero =>
    intro l r h c hc
    simp only [takeDigitsN, Option.some_inj] at h
    exact h ▸ hc
  | succ n ih =>
    intro l r h c hc
    match l with
    | [] => simp [takeDigitsN] at h
    | x :: l' =>
      simp only [takeDigitsN] at h
      by_cases hx : x.isDigit = true
      · rw [if_pos hx] at h
        exact List.mem_cons_of_mem x (ih l' r h c hc)
      · rw [if_neg hx] at h
        cases h

theorem expectChar_subset : ∀ (x : Char) (l r : List Char),
    expectChar x l = some r → x ∈ l := by
  intro x l r h
  match l with
  | [] => simp [expectChar] at h
  | y :: l' =>
    simp only [expectChar] at h
    by_cases hy : y = x
    · exact hy ▸ List.mem_cons_self y l'
    · rw [if_neg hy] at h
      cases h

/-- A UUID match always contains a hyphen (the one after the first hex run). -/
theorem matchUUID_hyphen (l r : List Char) (h : matchUUID l = some r) :
    '-' ∈ l := by
  unfold matchUUID at h
  cases h1 : takeHexN 8 l with
  | none => rw [h1] at h; simp at h
  | some v1 =>
    rw [h1] at h
    simp only [Option.some_bind] at h
    cases h2 : expectChar '-' v1 with
    | none => rw [h2] at h; simp at h
    | some v2 =>
      exact takeHexN_subset 8 l v1 h1 '-' (expectChar_subset '-' v1 v2 h2)

/-- A timestamp match always contains a hyphen (the one after the year). -/
theorem matchTS_hyphen (l r : List Char) (h : matchTS l = some r) :
    '-' ∈ l := by
  unfold matchTS at h
  cases h1 : takeDigitsN 4 l with
  | none => rw [h1] at h; simp at h
  | some v1 =>
    rw [h1] at h
    simp only [Option.some_bind] at h
    cases h2 : expectChar '-' v1 with
    | none => rw [h2] at h; simp at h
    | some v2 =>
      exact takeDigitsN_subset 4 l v1 h1 '-' (expectChar_subset '-' v1 v2 h2)

/-- An email match always contains an at sign. -/
theorem matchEmail_at (l r : List Char) (h : matchEmail l = some r) :
    '@' ∈ l := by
  simp only [matchEmail] at h
  by_cases hloc : (l.takeWhile isLocalChar).isEmpty
  · rw [if_pos hloc] at h
    cases h
  · rw [if_neg hloc] at h
    split at h
    next rest heq =>
      have hmem : '@' ∈ l.drop (l.takeWhile isLocalChar).length := by
        rw [heq]
        exact List.mem_cons_self '@' rest
      exact List.drop_subset _ l hmem
    next => cases h

theorem uuidRepAux_id : ∀ (fuel : Nat) (l : List Char), '-' ∉ l →
    uuidRepAux fuel l = l := by
  intro fuel
  induction fuel with
  | zero => intro l _; rfl
  | succ fuel ih =>
    intro l hl
    match l with
    | [] => rfl
    | c :: rest =>
      rcases hm : matchUUID (c :: rest) with _ | r'
      · simp only [uuidRepAux, hm, Option.elim_none]
        rw [ih rest (fun hc => hl (List.mem_cons_of_mem c hc))]
      · exact absurd (matchUUID_hyphen _ _ hm) hl

theorem tsRepAux_id : ∀ (fuel : Nat) (l : List Char), '-' ∉ l →
    tsRepAux fuel l = l := by
  intro fuel
  induction fuel with
  | zero => intro l _; rfl
  | succ fuel ih =>
    intro l hl
    match l with
    | [] => rfl
    | c :: rest =>
      rcases hm : matchTS (c :: rest) with _ | r'
      · simp only [tsRepAux, hm, Option.elim_none]
        rw [ih rest (fun hc => hl (List.mem_cons_of_mem c hc))]
      · exact absurd (matchTS_hyphen _ _ hm) hl

theorem emailRepAux_id : ∀ (fuel : Nat) (l : List Char), '@' ∉ l →
    emailRepAux fuel l = l := by
  intro fuel
  induction fuel with
  | zero => intro l _; rfl
  | succ fuel ih =>
    intro l hl
    match l with
    | [] => rfl
    | c :: rest =>
      rcases hm : matchEmail (c :: rest) with _ | r'
      · simp only [emailRepAux, hm, Option.elim_none]
        rw [ih rest (fun hc => hl (List.mem_cons_of_mem c hc))]
      · exact absurd (matchEmail_at _ _ hm) hl

theorem uuidRep_id (l : List Char) (h : '-' ∉ l) : uuidRep l = l :=
  uuidRepAux_id l.length l h

theorem tsRep_id (l : List Char) (h : '-' ∉ l) : tsRep l = l :=
  tsRepAux_id l.length l h

theorem emailRep_id (l : List Char) (h : '@' ∉ l) : emailRep l = l :=
  emailRepAux_id l.length l h

theorem digitRep_id (l : List Char) (h : ∀ c ∈ l, c.isDigit = false) :
    digitRep l = l :=
  digitRepAux_id false l h

/-- On input without at signs or hyphens only the digit pass can act: the
UUID and timestamp regexes need a hyphen and the email regex an at sign. -/
theorem extract_eq_digitRep (m : List Char) (hat : '@' ∉ m) (hhy : '-' ∉ m) :
    extractErrorPattern m = digitRep m := by
  have hat' : '@' ∉ digitRep m := fun h => by
    rcases mem_digitRepAux false m '@' h with h | h
    · exact hat h
    · cases h
  have hhy' : '-' ∉ digitRep m := fun h => by
    rcases mem_digitRepAux false m '-' h with h | h
    · exact hhy h
    · cases h
  unfold extractErrorPattern
  rw [uuidRep_id _ hhy', tsRep_id _ hhy', emailRep_id _ hat']

/-- C6 (counterexample): pattern extraction is not idempotent as claimed; on
this input the first pass turns one email into EMAIL and one UUID into UUID,
and the second pass then finds a new email (with the literal EMAIL as local
part) and a new UUID (completed by the hex letter D of the literal UUID), so
extract(extract(m)) differs from extract(m). -/
theorem extractErrorPattern_not_idempotent :
    extractErrorPattern (extractErrorPattern
      "a@b.co@c.dd deadbeef-dead-beef-dead-beefdeadbeefeadbeef-dead-beef-dead-beefdeadbeef".toList) ≠
    extractErrorPattern
      "a@b.co@c.dd deadbeef-dead-beef-dead-beefdeadbeefeadbeef-dead-beef-dead-beefdeadbeef".toList := by
  decide

/-- C6 (amended): pattern extraction is idempotent on every message that
contains neither an at sign nor a hyphen; on such messages only the digit
pass acts and replacing digit runs by N is idempotent, while inputs with
emails or partially replaced UUID shapes can gain new matches on a second
pass, as the counterexample shows. -/
theorem extractErrorPattern_idempotent (m : List Char)
    (hat : '@' ∉ m) (hhy : '-' ∉ m) :
    extractErrorPattern (extractErrorPattern m) = extractErrorPattern m := by
  rw [extract_eq_digitRep m hat hhy]
  have hat' : '@' ∉ digitRep m := fun h => by
    rcases mem_digitRepAux false m '@' h with h | h
    · exact hat h
    · cases h
  have hhy' : '-' ∉ digitRep m := fun h => by
    rcases mem_digitRepAux false m '-' h with h | h
    · exact hhy h
    · cases h
  rw [extract_eq_digitRep (digitRep m) hat' hhy']
  exact digitRep_id (digitRep m)
    (fun c hc => digitRepAux_no_digit false m c hc)

/-- Witness for the amended C6: a concrete message without at signs or
hyphens is a fixed point of a second extraction. -/
theorem extractErrorPattern_idempotent_witness :
    '@' ∉ "connection 42 timed out after 500 ms".toList ∧
    '-' ∉ "connection 42 timed out after 500 ms".toList ∧
    extractErrorPattern (extractErrorPattern
      "connection 42 timed out after 500 ms".toList) =
      extractErrorPattern "connection 42 timed out after 500 ms".toList :=
  ⟨by decide, by decide,
    extractErrorPattern_idempotent _ (by decide) (by decide)⟩

end Watchtower
